import Mathlib

/-!
Verification of the EcoQuant frontend backtest subsystem.

This file gives a shallow embedding of

* the payload-normalization helpers of `src/frontend/src/lib/api.ts`
  (`normalizeBacktestStatus`, `toNumber`, `toInteger`,
  `pickTopLevelOrMetric`, `normalizeBacktestResult`),
* the polling hooks of `src/frontend/src/hooks/use-backtests.ts`
  (`useBacktestStatus` refetch interval, `useBacktestWithPolling`
  modelled as an explicit transition system), and
* the new-strategy wizard of
  `src/frontend/src/app/dashboard/strategies/new/page.tsx`
  (modelled as an explicit transition system),

and proves the stated invariants about them.
-/

/-! ## A model of untyped JavaScript values

TypeScript `unknown` inputs are modelled by `JsValue`.  JavaScript numbers
(IEEE doubles) are modelled by `JsNum`: either one of the non-finite
sentinels or a finite value, represented exactly as a rational. -/

/-- Model of a JavaScript number: NaN, the two infinities, or a finite
value (every finite IEEE double is an exact rational). -/
inductive JsNum where
  | nan : JsNum
  | posInf : JsNum
  | negInf : JsNum
  | finite : ℚ → JsNum
  deriving DecidableEq

/-- Model of an untyped JavaScript value (the `unknown` inputs of the
normalization helpers in `src/frontend/src/lib/api.ts`). -/
inductive JsValue where
  | undefined : JsValue
  | null : JsValue
  | boolean : Bool → JsValue
  | number : JsNum → JsValue
  | str : String → JsValue
  deriving DecidableEq

/-- JavaScript nullish coalescing `a ?? b`. -/
def jsCoalesce (a b : JsValue) : JsValue :=
  match a with
  | .undefined => b
  | .null => b
  | _ => a

/-- JavaScript truthiness of a value. -/
def jsTruthy : JsValue → Bool
  | .undefined => false
  | .null => false
  | .boolean b => b
  | .number .nan => false
  | .number .posInf => true
  | .number .negInf => true
  | .number (.finite q) => q ≠ 0
  | .str s => s ≠ ""

/-- JavaScript `a || b`. -/
def jsOr (a b : JsValue) : JsValue :=
  if jsTruthy a then a else b

/-- Model of JavaScript `String.prototype.toLowerCase` (per-character
lowering; the status keywords compared against are ASCII). -/
def lowerString (s : String) : String :=
  ⟨s.data.map Char.toLower⟩

/-- Character for a decimal digit: `0 ↦ '0', …, 9 ↦ '9'`. -/
def digitChar48 (d : ℕ) : Char :=
  Char.ofNat (48 + d)

/-- Decimal representation of a natural number. -/
def natDec (n : ℕ) : String :=
  if n = 0 then "0" else ⟨((Nat.digits 10 n).reverse).map digitChar48⟩

/-- Exact decimal representation of a rational, used as the model of
JavaScript number-to-string conversion.  Finite JavaScript numbers are
dyadic rationals, for which this expansion is exact and terminates; the
function truncates on other rationals (unreachable from JS values) and
does not model the exponent notation JS uses for extreme magnitudes.
Its output only uses the characters `0-9`, `-` and `.`, which is all the
status-normalization claims depend on. -/
def ratDecRepr (q : ℚ) : String :=
  let sign := if q < 0 then "-" else ""
  let a : ℚ := |q|
  let ip : ℕ := a.floor.toNat
  let fr : ℚ := a - (ip : ℚ)
  if fr = 0 then sign ++ natDec ip
  else
    let n : ℕ := fr.num.toNat
    let d : ℕ := fr.den
    let k : ℕ := max (Nat.maxPowDiv 2 d) (Nat.maxPowDiv 5 d)
    let v : ℕ := n * 10 ^ k / d
    let ds : List ℕ := Nat.digits 10 v
    let padded : List ℕ := ds ++ List.replicate (k - ds.length) 0
    sign ++ natDec ip ++ "." ++ ⟨((padded.dropWhile (fun x => x = 0)).reverse).map digitChar48⟩

/-- JavaScript string conversion of a number. -/
def jsNumToString : JsNum → String
  | .nan => "NaN"
  | .posInf => "Infinity"
  | .negInf => "-Infinity"
  | .finite q => ratDecRepr q

/-- JavaScript `String(v)` conversion. -/
def jsToString : JsValue → String
  | .undefined => "undefined"
  | .null => "null"
  | .boolean true => "true"
  | .boolean false => "false"
  | .number x => jsNumToString x
  | .str s => s

/-! ## Status normalization (`src/frontend/src/lib/api.ts`, lines 65-70
and 139-151) -/

/-- The `BacktestStatusValue` union type of `api.ts`. -/
inductive BacktestStatusValue where
  | pending : BacktestStatusValue
  | running : BacktestStatusValue
  | completed : BacktestStatusValue
  | failed : BacktestStatusValue
  | cancelled : BacktestStatusValue
  deriving DecidableEq

/-- The string serialized for each status value (the five literals of the
TypeScript union). -/
def statusToString : BacktestStatusValue → String
  | .pending => "pending"
  | .running => "running"
  | .completed => "completed"
  | .failed => "failed"
  | .cancelled => "cancelled"

/-- Embedding of `normalizeBacktestStatus` (`api.ts` lines 139-151):
`String(status ?? "").toLowerCase()` followed by the five-way switch with
default `"pending"`. -/
def normalizeBacktestStatus (status : JsValue) : BacktestStatusValue :=
  let normalized := lowerString (jsToString (jsCoalesce status (JsValue.str "")))
  if normalized = "pending" then .pending
  else if normalized = "running" then .running
  else if normalized = "completed" then .completed
  else if normalized = "failed" then .failed
  else if normalized = "cancelled" then .cancelled
  else .pending

/-- Terminal statuses, written in the source as
`status === "completed" || status === "failed" || status === "cancelled"`
(`use-backtests.ts` lines 72 and 107-110). -/
def isTerminalStatus : BacktestStatusValue → Bool
  | .completed => true
  | .failed => true
  | .cancelled => true
  | _ => false

example : normalizeBacktestStatus (.str "COMPLETED") = .completed := by decide
example : normalizeBacktestStatus (.str "Cancelled") = .cancelled := by decide
example : normalizeBacktestStatus .null = .pending := by decide
example : normalizeBacktestStatus (.boolean true) = .pending := by decide

/-! ## Metric normalization (`src/frontend/src/lib/api.ts`, lines 72-137
and 153-170) -/

/-- The `BacktestMetricKey` union of `api.ts` (lines 72-85). -/
inductive BacktestMetricKey where
  | total_return | cagr | sharpe_ratio | sortino_ratio | calmar_ratio | mdd
  | total_trades | winning_trades | losing_trades
  | win_rate | avg_win | avg_loss | profit_factor
  deriving DecidableEq

/-- `NUMERIC_METRIC_KEYS` (`api.ts` lines 92-103). -/
def NUMERIC_METRIC_KEYS : List BacktestMetricKey :=
  [.total_return, .cagr, .sharpe_ratio, .sortino_ratio, .calmar_ratio, .mdd,
   .win_rate, .avg_win, .avg_loss, .profit_factor]

/-- `INTEGER_METRIC_KEYS` (`api.ts` lines 105-109). -/
def INTEGER_METRIC_KEYS : List BacktestMetricKey :=
  [.total_trades, .winning_trades, .losing_trades]

/-- Model of the `BacktestPayload` type of `api.ts` (lines 87-90): an
object with arbitrary top-level values for the metric keys, an optional
`metrics` record (`none` models a `metrics` field that is absent, `undefined`
or `null`; an absent key inside the record reads as `undefined`), and a
`status` field.  Remaining fields of a payload are carried through by the
source's object spread and are irrelevant to the normalized metrics. -/
structure BacktestPayload where
  top : BacktestMetricKey → JsValue
  metrics : Option (BacktestMetricKey → JsValue)
  status : JsValue

/-- Whether a JavaScript number is finite (`Number.isFinite` on a number). -/
def jsIsFinite : JsNum → Bool
  | .finite _ => true
  | _ => false

/-- Embedding of `toNumber` (`api.ts` lines 111-117).  The conversion
`Number(string)` is left as a parameter `conv`: every theorem below holds
for an arbitrary string-to-number conversion, so no parsing semantics are
assumed. -/
def toNumber (conv : String → JsNum) (value : JsValue) : Option JsNum :=
  match value with
  | .undefined => none
  | .null => none
  | v =>
    let n : JsNum :=
      match v with
      | .number x => x
      | .boolean true => .finite 1
      | .boolean false => .finite 0
      | .str s => conv s
      | _ => .nan
    if jsIsFinite n then some n else none

/-- JavaScript `Math.trunc` on a number. -/
def jsTrunc : JsNum → JsNum
  | .nan => .nan
  | .posInf => .posInf
  | .negInf => .negInf
  | .finite q => .finite ((if 0 ≤ q then q.floor else q.ceil : ℤ) : ℚ)

/-- Embedding of `toInteger` (`api.ts` lines 119-122). -/
def toInteger (conv : String → JsNum) (value : JsValue) : Option JsNum :=
  match toNumber conv value with
  | none => none
  | some n => some (jsTrunc n)

/-- Embedding of `pickTopLevelOrMetric` (`api.ts` lines 124-137). -/
def pickTopLevelOrMetric (payload : BacktestPayload) (key : BacktestMetricKey) : JsValue :=
  let topLevel := payload.top key
  if topLevel ≠ JsValue.null ∧ topLevel ≠ JsValue.undefined then topLevel
  else
    let nestedMetric :=
      match payload.metrics with
      | some m => m key
      | none => JsValue.undefined
    if nestedMetric ≠ JsValue.null ∧ nestedMetric ≠ JsValue.undefined then nestedMetric
    else JsValue.undefined

/-- The normalized fields produced by `normalizeBacktestResult`: the
normalized status together with the thirteen overwritten metric fields
(`none` models `undefined`). -/
structure NormalizedBacktestResult where
  status : BacktestStatusValue
  metricField : BacktestMetricKey → Option JsNum

/-- Embedding of `normalizeBacktestResult` (`api.ts` lines 153-170): the
status is normalized and every metric key is overwritten with
`toNumber`/`toInteger` of `pickTopLevelOrMetric`, according to which key
list it belongs to (the two lists are disjoint, covering all thirteen
keys). -/
def normalizeBacktestResult (conv : String → JsNum) (payload : BacktestPayload) :
    NormalizedBacktestResult :=
  { status := normalizeBacktestStatus payload.status
    metricField := fun key =>
      if key ∈ INTEGER_METRIC_KEYS then toInteger conv (pickTopLevelOrMetric payload key)
      else toNumber conv (pickTopLevelOrMetric payload key) }

/-! ## The polling hooks (`src/frontend/src/hooks/use-backtests.ts`)

`useBacktestWithPolling` is modelled as an explicit transition system.
The state carries the two pieces of React state of the hook
(`backtestId` and the ref `completedStateRef`), the cached data of the
status query and of the result query, and two instrumentation fields:
`fired` counts how many times the terminal-transition handler body (the
lines 127-137 block) has executed for the current job, and `time` is the
index of the latest server-trace sample either query has observed.

The data held by the status query is post-`api.backtests.status`
normalization (`api.ts` lines 323-337), so its `status` field is a
`BacktestStatusValue`; likewise the result query data is
post-`normalizeBacktestResult` (`api.ts` lines 307-310). -/

/-- Data of the status query (`api.backtests.status` response, already
normalized).  `progress` is `none` when the runtime payload carries no
usable progress value (`null`/`undefined`), which is what the
`?? ` fallback at line 161 of `use-backtests.ts` guards against. -/
structure StatusPayload where
  status : BacktestStatusValue
  progress : Option ℚ
  message : Option String
  deriving DecidableEq

/-- Data of the result query (`api.backtests.get` response, already
normalized); only the status field matters to the hook logic modelled
here. -/
structure ResultPayload where
  status : BacktestStatusValue
  deriving DecidableEq

/-- State of `useBacktestWithPolling`. -/
structure HookState where
  backtestId : Option ℕ
  completedRef : Option BacktestStatusValue
  statusData : Option StatusPayload
  resultData : Option ResultPayload
  fired : ℕ
  time : ℕ
  deriving DecidableEq

/-- The JavaScript value of an optional status field access such as
`statusQuery.data?.status`: `undefined` when the data is missing, the
status string otherwise. -/
def optStatusJs : Option BacktestStatusValue → JsValue
  | some v => .str (statusToString v)
  | none => .undefined

/-- Lines 104-106 of `use-backtests.ts`:
`normalizeBacktestStatus(statusQuery.data?.status || resultQuery.data?.status)`. -/
def finalStatus (st : HookState) : BacktestStatusValue :=
  normalizeBacktestStatus
    (jsOr (optStatusJs (Option.map StatusPayload.status st.statusData))
          (optStatusJs (Option.map ResultPayload.status st.resultData)))

/-- Lines 107-110 of `use-backtests.ts`. -/
def isTerminalState (st : HookState) : Bool :=
  isTerminalStatus (finalStatus st)

/-- JavaScript truthiness of the `number | null` value `backtestId`
(`!!backtestId`): `null` and `0` are falsy. -/
def jsTruthyId : Option ℕ → Bool
  | none => false
  | some n => n != 0

/-- Result of a react-query `refetchInterval` callback: `stop` models
returning `false`, `intervalMs n` models returning the number `n`. -/
inductive RefetchDecision where
  | stop : RefetchDecision
  | intervalMs : ℕ → RefetchDecision
  deriving DecidableEq

/-- Embedding of the `refetchInterval` callback of `useBacktestStatus`
(`use-backtests.ts` lines 70-76): normalize `query.state.data?.status`;
stop on a terminal status, otherwise poll again after 1000 ms. -/
def backtestStatusRefetchInterval (data : Option StatusPayload) : RefetchDecision :=
  let status := normalizeBacktestStatus (optStatusJs (Option.map StatusPayload.status data))
  if status = .completed ∨ status = .failed ∨ status = .cancelled then .stop
  else .intervalMs 1000

/-- Side effects the terminal-transition handler can emit. -/
inductive QueryEffect where
  | invalidateLists
  | refetchLists
  | invalidateDetail (id : ℕ)
  | refetchResult
  | toastSuccess
  | toastError (message : Option String)
  deriving DecidableEq

/-- The side-effect batch of the terminal-transition handler
(`use-backtests.ts` lines 127-137): invalidate and refetch the backtest
lists, invalidate the detail entry, refetch the final result, then toast
success on `completed` or failure on `failed` (no toast on `cancelled`). -/
def terminalHandlerEffects (id : ℕ) (fs : BacktestStatusValue) (msg : Option String) :
    List QueryEffect :=
  [.invalidateLists, .refetchLists, .invalidateDetail id, .refetchResult] ++
    (if fs = .completed then [.toastSuccess]
     else if fs = .failed then [.toastError msg] else [])

/-- Embedding of the body of the `useEffect` at lines 112-138 of
`use-backtests.ts`: on a falsy `backtestId` clear the marker; return
early when the status is not terminal or the marker already records this
terminal status; otherwise record the marker, run the side-effect batch
and (instrumentation) bump the `fired` counter. -/
def effectRun (st : HookState) : HookState × List QueryEffect :=
  match st.backtestId with
  | none => ({ st with completedRef := none }, [])
  | some n =>
    if n = 0 then ({ st with completedRef := none }, [])
    else if ¬ isTerminalStatus (finalStatus st) = true then (st, [])
    else if st.completedRef = some (finalStatus st) then (st, [])
    else
      ({ st with completedRef := some (finalStatus st), fired := st.fired + 1 },
       terminalHandlerEffects n (finalStatus st)
         (Option.bind st.statusData (fun p => p.message)))

/-- Line 161 of `use-backtests.ts`:
`progress: statusQuery.data?.progress ?? (isTerminalState ? 100 : 0)`. -/
def reportedProgress (st : HookState) : ℚ :=
  (Option.bind st.statusData StatusPayload.progress).getD
    (if isTerminalState st = true then 100 else 0)

/-- Embedding of `reset` (`use-backtests.ts` lines 151-154): clear the
marker and the stored id. -/
def resetHook (st : HookState) : HookState :=
  { st with completedRef := none, backtestId := none }

/-- The synchronous start of `runBacktest` (`use-backtests.ts` lines
142-143): clear the marker and the stored id before submitting. -/
def runBacktestBegin (st : HookState) : HookState :=
  { st with completedRef := none, backtestId := none }

/-- The state after `runBacktest` resolves with a fresh id (line 145):
the new id is stored; the new id keys fresh status/detail query cache
entries, so both data fields start empty, and the per-job
instrumentation counters restart. -/
def runBacktestSuccess (st : HookState) (newId : ℕ) : HookState :=
  { backtestId := some newId, completedRef := st.completedRef,
    statusData := none, resultData := none, fired := 0, time := 0 }

/-- The hook state right after a job with id `n` has been submitted. -/
def startHookState (n : ℕ) : HookState :=
  { backtestId := some n, completedRef := none,
    statusData := none, resultData := none, fired := 0, time := 0 }

/-- One step of the polling transition system for a submitted job, with
the server status trace `σ` (sample `σ i` is the job status the server
reports at its time `i`).  A status poll requires the status query to be
enabled (truthy id) and its refetch interval not to have returned
`false`; a result fetch requires the result query to be enabled
(`!!id && id > 0`).  Both kinds of fetch observe the server at a sample
index that never decreases (responses arrive in order); polled progress
and message values are unconstrained.  The effect body may run at any
time, which over-approximates the schedules React allows. -/
inductive HookStep (σ : ℕ → BacktestStatusValue) : HookState → HookState → Prop where
  | poll (st : HookState) (i : ℕ) (pr : Option ℚ) (msg : Option String)
      (henabled : jsTruthyId st.backtestId = true)
      (hactive : backtestStatusRefetchInterval st.statusData ≠ .stop)
      (htime : st.time ≤ i) :
      HookStep σ st { st with statusData := some ⟨σ i, pr, msg⟩, time := i }
  | fetchResult (st : HookState) (i : ℕ)
      (henabled : jsTruthyId st.backtestId = true)
      (htime : st.time ≤ i) :
      HookStep σ st { st with resultData := some ⟨σ i⟩, time := i }
  | effect (st : HookState) :
      HookStep σ st (effectRun st).1

/-- States reachable for a job with id `n` against server trace `σ`. -/
inductive HookReaches (σ : ℕ → BacktestStatusValue) (n : ℕ) : HookState → Prop where
  | start : HookReaches σ n (startHookState n)
  | step {s t : HookState} : HookReaches σ n s → HookStep σ s t → HookReaches σ n t

/-- A server trace respects the job state machine if a terminal status,
once reached, never changes (the spec: a terminal state is written
exactly once and is then immutable). -/
def TerminalStable (σ : ℕ → BacktestStatusValue) : Prop :=
  ∀ i j, i ≤ j → isTerminalStatus (σ i) = true → σ j = σ i

/-- Weaker server assumption: once terminal, always terminal (the status
may in principle move between terminal values). -/
def TerminalAbsorbing (σ : ℕ → BacktestStatusValue) : Prop :=
  ∀ i j, i ≤ j → isTerminalStatus (σ i) = true → isTerminalStatus (σ j) = true

/-! ## The new-strategy wizard
(`src/frontend/src/app/dashboard/strategies/new/page.tsx`)

The three-step wizard is modelled as a transition system over its React
state (`step`, `selectedType`, `strategyName`, `params`) plus the list
of create requests issued through `createStrategy.mutateAsync`.  Handlers
are embedded as functions; which handler can fire in which step follows
the rendered UI (type cards in step 1, parameter sliders in step 2, name
input and submit button in step 3, the navigation buttons always). -/

/-- The strategy-type ids of the wizard (`page.tsx` lines 49-94). -/
inductive StrategyTypeId where
  | sma_crossover
  | ema_crossover
  | sentiment_sma
  | sentiment_sma_aggressive
  | sentiment_sma_conservative
  deriving DecidableEq

/-- The `params` React state of the wizard (`page.tsx` lines 345-364).
All numeric fields are JavaScript numbers, modelled as rationals;
`position_size`, `stop_loss` and `take_profit` are UI percentages. -/
structure WizardParams where
  fast_period : ℚ
  slow_period : ℚ
  use_ema : Bool
  buy_threshold : ℚ
  panic_threshold : ℚ
  sentiment_lookback : ℚ
  stop_loss : ℚ
  take_profit : ℚ
  position_size : ℚ
  ai_weight : ℚ
  ignore_ai_on_strong_signal : Bool
  deriving DecidableEq

/-- Initial `params` state (`page.tsx` lines 345-364). -/
def initialWizardParams : WizardParams :=
  { fast_period := 10, slow_period := 30, use_ema := false,
    buy_threshold := 1/5, panic_threshold := -(1/2), sentiment_lookback := 3,
    stop_loss := 0, take_profit := 0, position_size := 100,
    ai_weight := 1/2, ignore_ai_on_strong_signal := false }

/-- The `defaultParams` table (`page.tsx` lines 96-152), merged over the
previous params with an object spread, so fields a type does not list
are preserved. -/
def applyTypeDefaults : StrategyTypeId → WizardParams → WizardParams
  | .sma_crossover, p =>
    { p with fast_period := 10, slow_period := 30,
             stop_loss := 0, take_profit := 0, position_size := 100 }
  | .ema_crossover, p =>
    { p with fast_period := 10, slow_period := 30, use_ema := true,
             stop_loss := 0, take_profit := 0, position_size := 100 }
  | .sentiment_sma, p =>
    { p with fast_period := 10, slow_period := 30,
             buy_threshold := 1/5, panic_threshold := -(1/2), sentiment_lookback := 3,
             stop_loss := 5, take_profit := 10, position_size := 100,
             ai_weight := 1/2, ignore_ai_on_strong_signal := false }
  | .sentiment_sma_aggressive, p =>
    { p with fast_period := 5, slow_period := 20,
             buy_threshold := 1/10, panic_threshold := -(3/10), sentiment_lookback := 2,
             stop_loss := 3, take_profit := 15, position_size := 100,
             ai_weight := 3/10, ignore_ai_on_strong_signal := true }
  | .sentiment_sma_conservative, p =>
    { p with fast_period := 15, slow_period := 50,
             buy_threshold := 2/5, panic_threshold := -(7/10), sentiment_lookback := 5,
             stop_loss := 7, take_profit := 8, position_size := 50,
             ai_weight := 7/10, ignore_ai_on_strong_signal := false }

/-- A create request issued to `api.strategies.create` by `handleSubmit`
(`page.tsx` lines 230-242).  `strategy_type` carries the selected type
(the source applies a non-null assertion there); `logic_config` is the
`backendParams` object: the wizard params with `position_size` divided
by 100. -/
structure CreateStrategyRequest where
  name : String
  strategy_type : Option StrategyTypeId
  logic_config : WizardParams
  deriving DecidableEq

/-- Wizard state: the React state plus the list of issued create
requests (instrumentation). -/
structure WizardState where
  step : ℕ
  selectedType : Option StrategyTypeId
  strategyName : String
  params : WizardParams
  issued : List CreateStrategyRequest
  deriving DecidableEq

/-- Initial wizard state (`page.tsx` lines 341-344). -/
def initialWizardState : WizardState :=
  { step := 1, selectedType := none, strategyName := "",
    params := initialWizardParams, issued := [] }

/-- Observable outcome of a handler invocation. -/
inductive WizardEffect where
  | validationToast : WizardEffect
  | createRequest : CreateStrategyRequest → WizardEffect
  deriving DecidableEq

/-- Embedding of `handleTypeSelect` (`page.tsx` lines 199-205); the
URL-type effect at lines 185-194 performs the same update. -/
def handleTypeSelect (t : StrategyTypeId) (s : WizardState) : WizardState :=
  { s with selectedType := some t, params := applyTypeDefaults t s.params }

/-- Embedding of `handleNext` (`page.tsx` lines 207-217): at step 1 an
unselected type is rejected with an error toast; at step 2 a
configuration with `fast_period >= slow_period` is rejected with an
error toast; otherwise the step advances, capped at 3. -/
def handleNext (s : WizardState) : WizardState × List WizardEffect :=
  if s.step = 1 ∧ s.selectedType = none then (s, [.validationToast])
  else if s.step = 2 ∧ s.params.fast_period ≥ s.params.slow_period then (s, [.validationToast])
  else ({ s with step := min (s.step + 1) 3 }, [])

/-- Embedding of `handleBack` (`page.tsx` lines 219-221). -/
def handleBack (s : WizardState) : WizardState :=
  { s with step := max (s.step - 1) 1 }

/-- The request object `handleSubmit` builds: the name, the selected
type and `backendParams` (the wizard params with `position_size` divided
by 100). -/
def submitRequest (s : WizardState) : CreateStrategyRequest :=
  { name := s.strategyName
    strategy_type := s.selectedType
    logic_config := { s.params with position_size := s.params.position_size / 100 } }

/-- Embedding of `handleSubmit` (`page.tsx` lines 223-246): an empty
(all-whitespace) name is rejected with an error toast; otherwise the
create request is issued, carrying `backendParams` in which
`position_size` is converted from a UI percentage to a fraction by
dividing by 100. -/
def handleSubmit (s : WizardState) : WizardState × List WizardEffect :=
  if s.strategyName.trim = "" then (s, [.validationToast])
  else ({ s with issued := s.issued ++ [submitRequest s] }, [.createRequest (submitRequest s)])

/-- One user/React step of the wizard.  Slider constructors carry the
slider bounds from the JSX (`min`/`max` props); sliders whose bounds are
irrelevant to the claims are over-approximated by arbitrary rational
values, which only enlarges the set of reachable states. -/
inductive WizardStep : WizardState → WizardState → Prop where
  | selectType (s : WizardState) (t : StrategyTypeId) (h : s.step = 1) :
      WizardStep s (handleTypeSelect t s)
  | urlTypeEffect (s : WizardState) (t : StrategyTypeId) :
      WizardStep s (handleTypeSelect t s)
  | next (s : WizardState) :
      WizardStep s (handleNext s).1
  | back (s : WizardState) :
      WizardStep s (handleBack s)
  | setFastPeriod (s : WizardState) (v : ℚ) (h : s.step = 2) :
      WizardStep s { s with params := { s.params with fast_period := v } }
  | setSlowPeriod (s : WizardState) (v : ℚ) (h : s.step = 2) :
      WizardStep s { s with params := { s.params with slow_period := v } }
  | setBuyThreshold (s : WizardState) (v : ℚ) (h : s.step = 2) :
      WizardStep s { s with params := { s.params with buy_threshold := v } }
  | setPanicThreshold (s : WizardState) (v : ℚ) (h : s.step = 2) :
      WizardStep s { s with params := { s.params with panic_threshold := v } }
  | setSentimentLookback (s : WizardState) (v : ℚ) (h : s.step = 2) :
      WizardStep s { s with params := { s.params with sentiment_lookback := v } }
  | setStopLoss (s : WizardState) (v : ℚ) (h : s.step = 2) :
      WizardStep s { s with params := { s.params with stop_loss := v } }
  | setTakeProfit (s : WizardState) (v : ℚ) (h : s.step = 2) :
      WizardStep s { s with params := { s.params with take_profit := v } }
  | setPositionSize (s : WizardState) (v : ℚ) (h : s.step = 2)
      (hv : 10 ≤ v ∧ v ≤ 100) :
      WizardStep s { s with params := { s.params with position_size := v } }
  | setAiWeight (s : WizardState) (v : ℚ) (h : s.step = 2) :
      WizardStep s { s with params := { s.params with ai_weight := v } }
  | setIgnoreAi (s : WizardState) (b : Bool) (h : s.step = 2) :
      WizardStep s { s with params := { s.params with ignore_ai_on_strong_signal := b } }
  | setName (s : WizardState) (name : String) (h : s.step = 3) :
      WizardStep s { s with strategyName := name }
  | submit (s : WizardState) (h : s.step = 3) :
      WizardStep s (handleSubmit s).1

/-- Wizard states reachable from the initial state. -/
inductive WizardReaches : WizardState → Prop where
  | start : WizardReaches initialWizardState
  | step {s t : WizardState} : WizardReaches s → WizardStep s t → WizardReaches t

/-! ## Basic lemmas about status normalization and the hook state -/

/-- Normalizing the serialized form of an already-normalized status is
the identity (the api layer normalizes responses, the hook normalizes
again). -/
lemma normalize_roundtrip (v : BacktestStatusValue) :
    normalizeBacktestStatus (.str (statusToString v)) = v := by
  cases v <;> decide

lemma jsTruthy_status_str (v : BacktestStatusValue) :
    jsTruthy (.str (statusToString v)) = true := by
  cases v <;> decide

/-- The status the refetch-interval callback of `useBacktestStatus` sees:
`normalizeBacktestStatus(query.state.data?.status)`. -/
def queryStatus (d : Option StatusPayload) : BacktestStatusValue :=
  normalizeBacktestStatus (optStatusJs (Option.map StatusPayload.status d))

lemma queryStatus_some (p : StatusPayload) : queryStatus (some p) = p.status := by
  simpa [queryStatus, optStatusJs] using normalize_roundtrip p.status

lemma queryStatus_none : queryStatus none = .pending := by decide

lemma finalStatus_statusData (st : HookState) (p : StatusPayload)
    (h : st.statusData = some p) : finalStatus st = p.status := by
  unfold finalStatus
  rw [h]
  simp [optStatusJs, jsOr, jsTruthy_status_str, normalize_roundtrip]

lemma finalStatus_resultData (st : HookState) (r : ResultPayload)
    (h : st.statusData = none) (hr : st.resultData = some r) :
    finalStatus st = r.status := by
  unfold finalStatus
  rw [h, hr]
  simp [optStatusJs, jsOr, jsTruthy, normalize_roundtrip]

lemma finalStatus_nodata (st : HookState)
    (h : st.statusData = none) (hr : st.resultData = none) :
    finalStatus st = .pending := by
  unfold finalStatus
  rw [h, hr]
  decide

lemma isTerminalStatus_iff (v : BacktestStatusValue) :
    isTerminalStatus v = true ↔ (v = .completed ∨ v = .failed ∨ v = .cancelled) := by
  cases v <;> simp [isTerminalStatus]

/-- C3: the refetch-interval callback of `useBacktestStatus` returns the
bounded 1000 ms interval exactly when the normalized status is not
terminal, and `false` (stop polling) exactly when the normalized status
is `completed`, `failed` or `cancelled`; it depends on nothing but the
normalized status, so an advisory cancellation request changes nothing
until the polled status actually becomes terminal. -/
theorem refetchInterval_spec :
    ∀ d : Option StatusPayload,
      (backtestStatusRefetchInterval d = .intervalMs 1000 ↔
        ¬ (queryStatus d = .completed ∨ queryStatus d = .failed ∨
           queryStatus d = .cancelled)) ∧
      (backtestStatusRefetchInterval d = .stop ↔
        (queryStatus d = .completed ∨ queryStatus d = .failed ∨
         queryStatus d = .cancelled)) := by
  intro d
  have hb : backtestStatusRefetchInterval d =
      if queryStatus d = .completed ∨ queryStatus d = .failed ∨ queryStatus d = .cancelled
      then .stop else .intervalMs 1000 := rfl
  by_cases h : queryStatus d = .completed ∨ queryStatus d = .failed ∨ queryStatus d = .cancelled
  · simp [hb, h]
  · simp [hb, h]

/-! ## Finiteness of normalized metrics (C5) -/

lemma toNumber_none_or_finite (conv : String → JsNum) (v : JsValue) :
    toNumber conv v = none ∨ ∃ q : ℚ, toNumber conv v = some (.finite q) := by
  cases v with
  | undefined => exact Or.inl rfl
  | null => exact Or.inl rfl
  | boolean b =>
    cases b
    · exact Or.inr ⟨0, rfl⟩
    · exact Or.inr ⟨1, rfl⟩
  | number x =>
    cases x with
    | finite q => exact Or.inr ⟨q, rfl⟩
    | nan => exact Or.inl rfl
    | posInf => exact Or.inl rfl
    | negInf => exact Or.inl rfl
  | str s =>
    have hshape : toNumber conv (.str s) =
        if jsIsFinite (conv s) then some (conv s) else none := rfl
    rw [hshape]
    cases hc : conv s with
    | finite q => exact Or.inr ⟨q, by simp [jsIsFinite]⟩
    | nan => exact Or.inl (by simp [jsIsFinite])
    | posInf => exact Or.inl (by simp [jsIsFinite])
    | negInf => exact Or.inl (by simp [jsIsFinite])

lemma toInteger_none_or_finite (conv : String → JsNum) (v : JsValue) :
    toInteger conv v = none ∨ ∃ q : ℚ, toInteger conv v = some (.finite q) := by
  unfold toInteger
  rcases toNumber_none_or_finite conv v with h | ⟨q, h⟩
  · rw [h]; exact Or.inl rfl
  · rw [h]
    exact Or.inr ⟨((if 0 ≤ q then q.floor else q.ceil : ℤ) : ℚ), rfl⟩

/-- C5: every numeric metric field of the normalized result — for every
payload, hence in particular when `total_trades` is 0, and for every
key, hence in particular `win_rate` and `profit_factor` — is either a
finite number or `undefined`; `NaN` and the infinities never appear,
whatever the `Number(string)` conversion does. -/
theorem normalized_metrics_finite :
    ∀ (conv : String → JsNum) (payload : BacktestPayload) (key : BacktestMetricKey),
      (normalizeBacktestResult conv payload).metricField key = none ∨
      ∃ q : ℚ, (normalizeBacktestResult conv payload).metricField key = some (.finite q) := by
  intro conv payload key
  have hfield : (normalizeBacktestResult conv payload).metricField key =
      if key ∈ INTEGER_METRIC_KEYS then toInteger conv (pickTopLevelOrMetric payload key)
      else toNumber conv (pickTopLevelOrMetric payload key) := rfl
  rw [hfield]
  by_cases hk : key ∈ INTEGER_METRIC_KEYS
  · rw [if_pos hk]
    exact toInteger_none_or_finite conv _
  · rw [if_neg hk]
    exact toNumber_none_or_finite conv _

/-! ## Precedence of metric resolution (C9) -/

/-- A JavaScript value that is neither `null` nor `undefined` (the test
`pickTopLevelOrMetric` applies at both levels). -/
def JsDefined (v : JsValue) : Prop :=
  v ≠ JsValue.null ∧ v ≠ JsValue.undefined

instance (v : JsValue) : Decidable (JsDefined v) := by
  unfold JsDefined; infer_instance

/-- C9: `normalizeBacktestResult` computes each metric field by
converting `pickTopLevelOrMetric`, and `pickTopLevelOrMetric` resolves
with the fixed precedence: the top-level field when defined, else the
field nested under `metrics` when defined, else `undefined` — and
converting `undefined` yields `undefined`. -/
theorem normalizeBacktestResult_precedence :
    ∀ (conv : String → JsNum) (payload : BacktestPayload) (key : BacktestMetricKey),
      ((normalizeBacktestResult conv payload).metricField key =
        (if key ∈ INTEGER_METRIC_KEYS then toInteger conv (pickTopLevelOrMetric payload key)
         else toNumber conv (pickTopLevelOrMetric payload key))) ∧
      (JsDefined (payload.top key) → pickTopLevelOrMetric payload key = payload.top key) ∧
      (¬ JsDefined (payload.top key) →
        ∀ m, payload.metrics = some m → JsDefined (m key) →
          pickTopLevelOrMetric payload key = m key) ∧
      (¬ JsDefined (payload.top key) →
        (payload.metrics = none → pickTopLevelOrMetric payload key = .undefined) ∧
        (∀ m, payload.metrics = some m → ¬ JsDefined (m key) →
          pickTopLevelOrMetric payload key = .undefined)) ∧
      toNumber conv .undefined = none ∧ toInteger conv .undefined = none := by
  intro conv payload key
  refine ⟨rfl, ?_, ?_, ?_, rfl, rfl⟩
  · intro h
    have h1 : payload.top key ≠ JsValue.null ∧ payload.top key ≠ JsValue.undefined := h
    simp only [pickTopLevelOrMetric]
    rw [if_pos h1]
  · intro h m hm hdef
    have h1 : ¬ (payload.top key ≠ JsValue.null ∧ payload.top key ≠ JsValue.undefined) := h
    have h3 : m key ≠ JsValue.null ∧ m key ≠ JsValue.undefined := hdef
    simp only [pickTopLevelOrMetric]
    rw [if_neg h1, hm]
    simp only []
    rw [if_pos h3]
  · intro h
    have h1 : ¬ (payload.top key ≠ JsValue.null ∧ payload.top key ≠ JsValue.undefined) := h
    constructor
    · intro hm
      simp only [pickTopLevelOrMetric]
      rw [if_neg h1, hm]
      simp
    · intro m hm hdef
      have h3 : ¬ (m key ≠ JsValue.null ∧ m key ≠ JsValue.undefined) := hdef
      simp only [pickTopLevelOrMetric]
      rw [if_neg h1, hm]
      simp only []
      rw [if_neg h3]

/-- Witness for C9 at concrete payloads: a defined top-level value wins,
and with a null top-level value the nested metric is used. -/
theorem normalizeBacktestResult_precedence_witness :
    pickTopLevelOrMetric ⟨fun _ => .str "5", none, .undefined⟩ .win_rate = .str "5" ∧
    pickTopLevelOrMetric ⟨fun _ => .null, some (fun _ => .str "7"), .undefined⟩ .win_rate
      = .str "7" :=
  ⟨(normalizeBacktestResult_precedence (fun _ => .nan) _ .win_rate).2.1 (by decide),
   (normalizeBacktestResult_precedence (fun _ => .nan) _ .win_rate).2.2.1 (by decide)
     _ rfl (by decide)⟩

/-! ## Totality of status normalization (C8)

The interesting case is numbers: the string representation of any
JavaScript number only uses digits, the minus sign and the dot (or the
words `NaN`/`Infinity`), so lowercasing it can never produce one of the
five status keywords, all of which contain a lowercase letter. -/

/-- The five recognized status strings. -/
def statusWords : List String :=
  ["pending", "running", "completed", "failed", "cancelled"]

/-- Characters that can occur in the decimal representation of a
number: digits, minus sign, dot. -/
def SafeChar (c : Char) : Prop :=
  c = '-' ∨ c = '.' ∨ ∃ d, d < 10 ∧ c = digitChar48 d

lemma safeChar_toLower (c : Char) (h : SafeChar c) :
    Char.toLower c = c ∧ c.toNat ≤ 57 := by
  rcases h with h | h | ⟨d, hd, h⟩
  · subst h; exact ⟨by decide, by decide⟩
  · subst h; exact ⟨by decide, by decide⟩
  · subst h
    interval_cases d <;> exact ⟨by decide, by decide⟩

/-- Lowercasing a string of safe characters never yields a status
keyword: each keyword contains a lowercase letter (code point at least
97), while safe characters are fixed by lowercasing and have code points
at most 57. -/
lemma lower_safe_not_word (s : String) (hs : ∀ c ∈ s.data, SafeChar c) :
    ∀ w ∈ statusWords, lowerString s ≠ w := by
  intro w hw heq
  have hx : ∃ x ∈ w.data, 97 ≤ x.toNat := by
    fin_cases hw <;> decide
  obtain ⟨x, hxw, hx97⟩ := hx
  rw [← heq] at hxw
  have hxw2 : x ∈ s.data.map Char.toLower := hxw
  obtain ⟨c, hc, hcx⟩ := List.mem_map.1 hxw2
  have hsafe := safeChar_toLower c (hs c hc)
  rw [hsafe.1] at hcx
  subst hcx
  omega

lemma mem_map_digitChar_safe (L : List ℕ) (hL : ∀ d ∈ L, d < 10) :
    ∀ c ∈ L.map digitChar48, SafeChar c := by
  intro c hc
  obtain ⟨d, hd, rfl⟩ := List.mem_map.1 hc
  exact Or.inr (Or.inr ⟨d, hL d hd, rfl⟩)

lemma natDec_safe (n : ℕ) : ∀ c ∈ (natDec n).data, SafeChar c := by
  intro c hc
  unfold natDec at hc
  by_cases h : n = 0
  · rw [if_pos h] at hc
    have hc0 : c = '0' := by simpa using hc
    subst hc0
    exact Or.inr (Or.inr ⟨0, by norm_num, by decide⟩)
  · rw [if_neg h] at hc
    have hc2 : c ∈ (Nat.digits 10 n).reverse.map digitChar48 := hc
    refine mem_map_digitChar_safe _ ?_ c hc2
    intro d hd
    exact Nat.digits_lt_base (by norm_num) (List.mem_reverse.1 hd)

lemma sign_safe (q : ℚ) : ∀ c ∈ (if q < 0 then "-" else "").data, SafeChar c := by
  intro c hc
  by_cases h : q < 0
  · rw [if_pos h] at hc
    have hc0 : c = '-' := by simpa using hc
    exact Or.inl hc0
  · rw [if_neg h] at hc
    simp at hc

lemma ratDecRepr_safe (q : ℚ) : ∀ c ∈ (ratDecRepr q).data, SafeChar c := by
  intro c hc
  simp only [ratDecRepr] at hc
  by_cases hfr : (|q| - ((|q|.floor.toNat : ℕ) : ℚ)) = 0
  · rw [if_pos hfr] at hc
    rw [String.data_append] at hc
    rcases List.mem_append.1 hc with h | h
    · exact sign_safe q c h
    · exact natDec_safe _ c h
  · rw [if_neg hfr] at hc
    rw [String.data_append, String.data_append, String.data_append] at hc
    rcases List.mem_append.1 hc with h | h
    · rcases List.mem_append.1 h with h2 | h2
      · rcases List.mem_append.1 h2 with h3 | h3
        · exact sign_safe q c h3
        · exact natDec_safe _ c h3
      · have hdot : c = '.' := by simpa using h2
        exact Or.inr (Or.inl hdot)
    · have hmem : c ∈ (List.dropWhile (fun x => x = 0)
          ((Nat.digits 10 _) ++ List.replicate _ 0)).reverse.map digitChar48 := h
      refine mem_map_digitChar_safe _ ?_ c hmem
      intro d hd
      have hd2 := List.mem_reverse.1 hd
      have hd3 := (List.dropWhile_sublist _).subset hd2
      rcases List.mem_append.1 hd3 with h4 | h4
      · exact Nat.digits_lt_base (by norm_num) h4
      · rw [List.eq_of_mem_replicate h4]
        norm_num

lemma normalize_number_pending (x : JsNum) :
    normalizeBacktestStatus (.number x) = .pending := by
  cases x with
  | nan => decide
  | posInf => decide
  | negInf => decide
  | finite q =>
    have hne := lower_safe_not_word (ratDecRepr q) (ratDecRepr_safe q)
    have hshape : normalizeBacktestStatus (.number (.finite q)) =
        (if lowerString (ratDecRepr q) = "pending" then .pending
         else if lowerString (ratDecRepr q) = "running" then .running
         else if lowerString (ratDecRepr q) = "completed" then .completed
         else if lowerString (ratDecRepr q) = "failed" then .failed
         else if lowerString (ratDecRepr q) = "cancelled" then .cancelled
         else .pending) := rfl
    rw [hshape, if_neg (hne _ (by decide)), if_neg (hne _ (by decide)),
        if_neg (hne _ (by decide)), if_neg (hne _ (by decide)),
        if_neg (hne _ (by decide))]

/-- C8: `normalizeBacktestStatus` is total with range contained in the
five statuses; it recognizes the five keywords case-insensitively; every
string that does not lowercase to a keyword, as well as `null`,
`undefined`, booleans and numbers, maps to `pending`. -/
theorem normalizeBacktestStatus_total :
    (∀ v : JsValue, normalizeBacktestStatus v ∈
      [BacktestStatusValue.pending, .running, .completed, .failed, .cancelled]) ∧
    (∀ s : String, lowerString s = "pending" →
      normalizeBacktestStatus (.str s) = .pending) ∧
    (∀ s : String, lowerString s = "running" →
      normalizeBacktestStatus (.str s) = .running) ∧
    (∀ s : String, lowerString s = "completed" →
      normalizeBacktestStatus (.str s) = .completed) ∧
    (∀ s : String, lowerString s = "failed" →
      normalizeBacktestStatus (.str s) = .failed) ∧
    (∀ s : String, lowerString s = "cancelled" →
      normalizeBacktestStatus (.str s) = .cancelled) ∧
    (∀ s : String, lowerString s ∉ statusWords →
      normalizeBacktestStatus (.str s) = .pending) ∧
    normalizeBacktestStatus .null = .pending ∧
    normalizeBacktestStatus .undefined = .pending ∧
    (∀ b : Bool, normalizeBacktestStatus (.boolean b) = .pending) ∧
    (∀ x : JsNum, normalizeBacktestStatus (.number x) = .pending) := by
  have hshape : ∀ s : String, normalizeBacktestStatus (.str s) =
      (if lowerString s = "pending" then .pending
       else if lowerString s = "running" then .running
       else if lowerString s = "completed" then .completed
       else if lowerString s = "failed" then .failed
       else if lowerString s = "cancelled" then .cancelled
       else .pending) := fun _ => rfl
  refine ⟨?_, ?_, ?_, ?_, ?_, ?_, ?_, by decide, by decide, ?_, normalize_number_pending⟩
  · intro v
    rcases h : normalizeBacktestStatus v <;> simp
  · intro s h; rw [hshape, h]; decide
  · intro s h; rw [hshape, h]; decide
  · intro s h; rw [hshape, h]; decide
  · intro s h; rw [hshape, h]; decide
  · intro s h; rw [hshape, h]; decide
  · intro s h
    have hne : ∀ w ∈ statusWords, lowerString s ≠ w := by
      intro w hw heq
      exact h (heq ▸ hw)
    rw [hshape, if_neg (hne _ (by decide)), if_neg (hne _ (by decide)),
        if_neg (hne _ (by decide)), if_neg (hne _ (by decide)),
        if_neg (hne _ (by decide))]
  · intro b; cases b <;> decide

/-- Witness for C8 at concrete inputs: a mixed-case keyword is
recognized, an unrecognized string falls back to pending. -/
theorem normalizeBacktestStatus_total_witness :
    normalizeBacktestStatus (.str "FaIled") = .failed ∧
    normalizeBacktestStatus (.str "not-a-status") = .pending :=
  ⟨normalizeBacktestStatus_total.2.2.2.2.1 "FaIled" (by decide),
   normalizeBacktestStatus_total.2.2.2.2.2.2.1 "not-a-status" (by decide)⟩

/-! ## Invariants of the polling transition system (C1, C2, C6) -/

/-- Reformulation of the refetch-interval callback through
`isTerminalStatus`. -/
lemma refetchInterval_ite (d : Option StatusPayload) :
    backtestStatusRefetchInterval d =
      if isTerminalStatus (queryStatus d) = true then .stop else .intervalMs 1000 := by
  have hb : backtestStatusRefetchInterval d =
      if queryStatus d = .completed ∨ queryStatus d = .failed ∨ queryStatus d = .cancelled
      then .stop else .intervalMs 1000 := rfl
  rw [hb]
  by_cases h : queryStatus d = .completed ∨ queryStatus d = .failed ∨ queryStatus d = .cancelled
  · rw [if_pos h, if_pos ((isTerminalStatus_iff _).2 h)]
  · rw [if_neg h, if_neg (fun ht => h ((isTerminalStatus_iff _).1 ht))]

/-- The effect body never changes the id, the query data or the clock. -/
lemma effectRun_preserves (st : HookState) :
    (effectRun st).1.backtestId = st.backtestId ∧
    (effectRun st).1.statusData = st.statusData ∧
    (effectRun st).1.resultData = st.resultData ∧
    (effectRun st).1.time = st.time := by
  unfold effectRun
  cases hb : st.backtestId <;> dsimp only <;> repeat' split
  all_goals simp [hb]

lemma effectRun_of_nonterminal (st : HookState) (n : ℕ)
    (hb : st.backtestId = some n) (hn : n ≠ 0)
    (ht : isTerminalStatus (finalStatus st) = false) :
    (effectRun st).1 = st := by
  unfold effectRun
  rw [hb]
  dsimp only
  rw [if_neg hn, if_pos (by simp [ht])]

lemma effectRun_of_skip (st : HookState) (n : ℕ)
    (hb : st.backtestId = some n) (hn : n ≠ 0)
    (ht : isTerminalStatus (finalStatus st) = true)
    (heq : st.completedRef = some (finalStatus st)) :
    (effectRun st).1 = st := by
  unfold effectRun
  rw [hb]
  dsimp only
  rw [if_neg hn, if_neg (fun h => h ht), if_pos heq]

lemma effectRun_of_fire (st : HookState) (n : ℕ)
    (hb : st.backtestId = some n) (hn : n ≠ 0)
    (ht : isTerminalStatus (finalStatus st) = true)
    (hne : st.completedRef ≠ some (finalStatus st)) :
    (effectRun st).1 =
      { st with completedRef := some (finalStatus st), fired := st.fired + 1 } := by
  unfold effectRun
  rw [hb]
  dsimp only
  rw [if_neg hn, if_neg (fun h => h ht), if_neg hne]

lemma finalStatus_eq_of (t s : HookState)
    (h1 : t.statusData = s.statusData) (h2 : t.resultData = s.resultData) :
    finalStatus t = finalStatus s := by
  unfold finalStatus
  rw [h1, h2]

lemma finalStatus_mk_some (b : Option ℕ) (cr : Option BacktestStatusValue)
    (p : StatusPayload) (rd : Option ResultPayload) (f tm : ℕ) :
    finalStatus ⟨b, cr, some p, rd, f, tm⟩ = p.status :=
  finalStatus_statusData _ p rfl

lemma finalStatus_mk_result (b : Option ℕ) (cr : Option BacktestStatusValue)
    (r : ResultPayload) (f tm : ℕ) :
    finalStatus ⟨b, cr, none, some r, f, tm⟩ = r.status :=
  finalStatus_resultData _ r rfl rfl

/-- Every piece of query data a reachable hook state holds is a sample
of the server trace taken no later than the state clock, and the stored
id never changes. -/
def SampleInv (σ : ℕ → BacktestStatusValue) (n : ℕ) (s : HookState) : Prop :=
  s.backtestId = some n ∧
  (∀ p, s.statusData = some p → ∃ i, i ≤ s.time ∧ σ i = p.status) ∧
  (∀ r, s.resultData = some r → ∃ i, i ≤ s.time ∧ σ i = r.status)

lemma reaches_sampleInv (σ : ℕ → BacktestStatusValue) (n : ℕ) {s : HookState}
    (hr : HookReaches σ n s) : SampleInv σ n s := by
  induction hr with
  | start =>
    exact ⟨rfl, fun p hp => Option.noConfusion hp, fun r hr => Option.noConfusion hr⟩
  | @step st t hreach hstep ih =>
    cases hstep with
    | poll i pr msg hen hact htime =>
      refine ⟨ih.1, ?_, ?_⟩
      · intro p hp
        have hp2 : p = ⟨σ i, pr, msg⟩ := (Option.some.inj hp).symm
        subst hp2
        exact ⟨i, le_refl i, rfl⟩
      · intro r hrd
        obtain ⟨j, hj, hs⟩ := ih.2.2 r hrd
        exact ⟨j, le_trans hj htime, hs⟩
    | fetchResult i hen htime =>
      refine ⟨ih.1, ?_, ?_⟩
      · intro p hp
        obtain ⟨j, hj, hs⟩ := ih.2.1 p hp
        exact ⟨j, le_trans hj htime, hs⟩
      · intro r hrd
        have hr2 : r = ⟨σ i⟩ := (Option.some.inj hrd).symm
        subst hr2
        exact ⟨i, le_refl i, rfl⟩
    | effect =>
      have hpres := effectRun_preserves st
      refine ⟨?_, ?_, ?_⟩
      · rw [hpres.1]; exact ih.1
      · intro p hp
        rw [hpres.2.1] at hp
        rw [hpres.2.2.2]
        exact ih.2.1 p hp
      · intro r hrd
        rw [hpres.2.2.1] at hrd
        rw [hpres.2.2.2]
        exact ih.2.2 r hrd

/-- A terminal derived status is itself a sample of the server trace. -/
lemma finalStatus_terminal_sample (σ : ℕ → BacktestStatusValue) (n : ℕ) (s : HookState)
    (hsamp : SampleInv σ n s) (ht : isTerminalStatus (finalStatus s) = true) :
    ∃ i, i ≤ s.time ∧ σ i = finalStatus s := by
  cases hsd : s.statusData with
  | some p =>
    obtain ⟨i, hi, hs⟩ := hsamp.2.1 p hsd
    exact ⟨i, hi, by rw [finalStatus_statusData s p hsd]; exact hs⟩
  | none =>
    cases hrd : s.resultData with
    | some r =>
      obtain ⟨i, hi, hs⟩ := hsamp.2.2 r hrd
      exact ⟨i, hi, by rw [finalStatus_resultData s r hsd hrd]; exact hs⟩
    | none =>
      rw [finalStatus_nodata s hsd hrd] at ht
      exact absurd ht (by decide)

/-- Under a stable-terminal server trace, two terminal samples agree. -/
lemma terminal_samples_eq (σ : ℕ → BacktestStatusValue) (hσ : TerminalStable σ)
    {v w : BacktestStatusValue} {i j : ℕ}
    (hi : σ i = v) (hj : σ j = w)
    (hv : isTerminalStatus v = true) (hw : isTerminalStatus w = true) : w = v := by
  rcases le_total i j with h | h
  · have h2 := hσ i j h (by rw [hi]; exact hv)
    rw [hj, hi] at h2
    exact h2
  · have h2 := hσ j i h (by rw [hj]; exact hw)
    rw [hi, hj] at h2
    exact h2.symm

/-- The already-handled marker and the firing counter stay in lock-step:
no marker means no firing yet; a marker records exactly one firing, for
a terminal status that is a sample of the server trace. -/
def MarkerInv (σ : ℕ → BacktestStatusValue) (s : HookState) : Prop :=
  (s.completedRef = none → s.fired = 0) ∧
  (∀ v, s.completedRef = some v →
    s.fired = 1 ∧ isTerminalStatus v = true ∧ ∃ i, i ≤ s.time ∧ σ i = v)

lemma reaches_markerInv (σ : ℕ → BacktestStatusValue) (n : ℕ) (hn : n ≠ 0)
    (hσ : TerminalStable σ) {s : HookState} (hr : HookReaches σ n s) :
    MarkerInv σ s := by
  induction hr with
  | start => exact ⟨fun _ => rfl, fun v hv => Option.noConfusion hv⟩
  | @step st t hreach hstep ih =>
    cases hstep with
    | poll i pr msg hen hact htime =>
      refine ⟨ih.1, ?_⟩
      intro v hv
      obtain ⟨h1, h2, j, hj, hs⟩ := ih.2 v hv
      exact ⟨h1, h2, j, le_trans hj htime, hs⟩
    | fetchResult i hen htime =>
      refine ⟨ih.1, ?_⟩
      intro v hv
      obtain ⟨h1, h2, j, hj, hs⟩ := ih.2 v hv
      exact ⟨h1, h2, j, le_trans hj htime, hs⟩
    | effect =>
      have hsamp := reaches_sampleInv σ n hreach
      have hb := hsamp.1
      by_cases hterm : isTerminalStatus (finalStatus st) = true
      · by_cases heq : st.completedRef = some (finalStatus st)
        · rw [effectRun_of_skip st n hb hn hterm heq]
          exact ih
        · rw [effectRun_of_fire st n hb hn hterm heq]
          cases hro : st.completedRef with
          | none =>
            have h0 := ih.1 hro
            refine ⟨fun h => Option.noConfusion h, ?_⟩
            intro v hv
            have hv2 : v = finalStatus st := (Option.some.inj hv).symm
            subst hv2
            obtain ⟨i, hi, hs⟩ := finalStatus_terminal_sample σ n st hsamp hterm
            exact ⟨by rw [h0], hterm, i, hi, hs⟩
          | some w =>
            exfalso
            obtain ⟨h1, hwterm, j, hj, hsw⟩ := ih.2 w hro
            obtain ⟨i, hi, hsf⟩ := finalStatus_terminal_sample σ n st hsamp hterm
            have hweq := terminal_samples_eq σ hσ hsf hsw hterm hwterm
            exact heq (hro.trans (congrArg some hweq))
      · have hterm2 : isTerminalStatus (finalStatus st) = false := by
          cases h2 : isTerminalStatus (finalStatus st) with
          | false => rfl
          | true => exact absurd h2 hterm
        rw [effectRun_of_nonterminal st n hb hn hterm2]
        exact ih

/-- C1: in every reachable state of a job whose server trace writes its
terminal status exactly once, the terminal-transition handler has fired
at most once, and whenever the derived status is terminal, running the
effect body (no matter how many polls or effect re-runs already
observed the terminal status) leaves the firing count at exactly one. -/
theorem terminal_handler_exactly_once :
    ∀ (σ : ℕ → BacktestStatusValue) (n : ℕ) (s : HookState),
      n ≠ 0 → TerminalStable σ → HookReaches σ n s →
      s.fired ≤ 1 ∧
      (isTerminalStatus (finalStatus s) = true → (effectRun s).1.fired = 1) := by
  intro σ n s hn hσ hr
  have hm := reaches_markerInv σ n hn hσ hr
  have hsamp := reaches_sampleInv σ n hr
  constructor
  · cases hro : s.completedRef with
    | none => rw [hm.1 hro]; decide
    | some w => rw [(hm.2 w hro).1]
  · intro hterm
    by_cases heq : s.completedRef = some (finalStatus s)
    · rw [effectRun_of_skip s n hsamp.1 hn hterm heq]
      exact (hm.2 _ heq).1
    · rw [effectRun_of_fire s n hsamp.1 hn hterm heq]
      cases hro : s.completedRef with
      | none =>
        show s.fired + 1 = 1
        rw [hm.1 hro]
      | some w =>
        exfalso
        obtain ⟨_, hwterm, j, hj, hsw⟩ := hm.2 w hro
        obtain ⟨i, hi, hsf⟩ := finalStatus_terminal_sample σ n s hsamp hterm
        exact heq (hro.trans (congrArg some (terminal_samples_eq σ hσ hsf hsw hterm hwterm)))

/-- Demonstration state used by the hook witnesses: the job with id 1
immediately observed as completed by the first status poll. -/
def hookDemoState : HookState :=
  { startHookState 1 with statusData := some ⟨.completed, none, none⟩, time := 0 }

/-- Witness for C1: against the constant completed server trace, the
state after one status poll has fired at most once, and the effect body
brings the count to exactly one. -/
theorem terminal_handler_exactly_once_witness :
    hookDemoState.fired ≤ 1 ∧
    (isTerminalStatus (finalStatus hookDemoState) = true →
      (effectRun hookDemoState).1.fired = 1) :=
  terminal_handler_exactly_once (fun _ => .completed) 1 hookDemoState (by decide)
    (fun _ _ _ _ => rfl)
    (HookReaches.step HookReaches.start
      (HookStep.poll _ 0 none none (by decide) (by decide) (by decide)))

/-- C2: once the hook derives a terminal status for a job, every
subsequent step of the same job (polls stop once the status query holds
a terminal status; results sample an absorbing server trace; the effect
body does not touch query data) derives a terminal status again. -/
theorem terminal_status_monotone :
    ∀ (σ : ℕ → BacktestStatusValue) (n : ℕ) (s t : HookState),
      n ≠ 0 → TerminalAbsorbing σ → HookReaches σ n s → HookStep σ s t →
      isTerminalStatus (finalStatus s) = true →
      isTerminalStatus (finalStatus t) = true := by
  intro σ n s t hn hσ hr hstep hterm
  have hsamp := reaches_sampleInv σ n hr
  cases hstep with
  | poll i pr msg hen hact htime =>
    cases hsd : s.statusData with
    | some p =>
      exfalso
      apply hact
      rw [hsd, refetchInterval_ite, queryStatus_some]
      rw [finalStatus_statusData s p hsd] at hterm
      rw [if_pos hterm]
    | none =>
      cases hrd : s.resultData with
      | some r =>
        obtain ⟨j, hj, hs⟩ := hsamp.2.2 r hrd
        rw [finalStatus_mk_some]
        rw [finalStatus_resultData s r hsd hrd] at hterm
        have hjt : isTerminalStatus (σ j) = true := by rw [hs]; exact hterm
        show isTerminalStatus (σ i) = true
        exact hσ j i (le_trans hj htime) hjt
      | none =>
        rw [finalStatus_nodata s hsd hrd] at hterm
        exact absurd hterm (by decide)
  | fetchResult i hen htime =>
    cases hsd : s.statusData with
    | some p =>
      rw [finalStatus_mk_some]
      rw [finalStatus_statusData s p hsd] at hterm
      exact hterm
    | none =>
      cases hrd : s.resultData with
      | some r =>
        obtain ⟨j, hj, hs⟩ := hsamp.2.2 r hrd
        rw [finalStatus_mk_result]
        rw [finalStatus_resultData s r hsd hrd] at hterm
        have hjt : isTerminalStatus (σ j) = true := by rw [hs]; exact hterm
        show isTerminalStatus (σ i) = true
        exact hσ j i (le_trans hj htime) hjt
      | none =>
        rw [finalStatus_nodata s hsd hrd] at hterm
        exact absurd hterm (by decide)
  | effect =>
    have hpres := effectRun_preserves s
    rw [finalStatus_eq_of (effectRun s).1 s hpres.2.1 hpres.2.2.1]
    exact hterm

/-- Witness for C2: after the first poll observes completed, running the
effect body still derives a terminal status. -/
theorem terminal_status_monotone_witness :
    isTerminalStatus (finalStatus (effectRun hookDemoState).1) = true :=
  terminal_status_monotone (fun _ => .completed) 1 hookDemoState _ (by decide)
    (fun _ _ _ ht => ht)
    (HookReaches.step HookReaches.start
      (HookStep.poll _ 0 none none (by decide) (by decide) (by decide)))
    (HookStep.effect _) (by decide)

/-- C6: `reset` and the synchronous start of `runBacktest` clear both
the already-handled marker and the stored id; the state for the next
submitted job is exactly the fresh start state; and from any state whose
marker is clear, an effect run observing a terminal status fires the
handler (increments the count and records the marker), independently of
whatever was handled before the marker was cleared. -/
theorem reset_clears_marker :
    (∀ st : HookState,
      (resetHook st).completedRef = none ∧ (resetHook st).backtestId = none) ∧
    (∀ st : HookState,
      (runBacktestBegin st).completedRef = none ∧ (runBacktestBegin st).backtestId = none) ∧
    (∀ (st : HookState) (m : ℕ),
      runBacktestSuccess (runBacktestBegin st) m = startHookState m) ∧
    (∀ (st : HookState) (n : ℕ), st.backtestId = some n → n ≠ 0 →
      st.completedRef = none → isTerminalStatus (finalStatus st) = true →
      (effectRun st).1.fired = st.fired + 1 ∧
      (effectRun st).1.completedRef = some (finalStatus st)) := by
  refine ⟨fun st => ⟨rfl, rfl⟩, fun st => ⟨rfl, rfl⟩, fun st m => rfl, ?_⟩
  intro st n hb hn hro hterm
  have hne : st.completedRef ≠ some (finalStatus st) := by
    rw [hro]; exact fun h => Option.noConfusion h
  rw [effectRun_of_fire st n hb hn hterm hne]
  exact ⟨rfl, rfl⟩

/-- Witness for C6: a cleared marker lets the handler fire on a terminal
status. -/
theorem reset_clears_marker_witness :
    (effectRun hookDemoState).1.fired = hookDemoState.fired + 1 ∧
    (effectRun hookDemoState).1.completedRef = some (finalStatus hookDemoState) :=
  reset_clears_marker.2.2.2 hookDemoState 1 rfl (by decide) rfl (by decide)

/-! ## Reported progress (C10) -/

/-- C10: when the latest status payload carries no progress value the
hook reports 100 for a terminal derived status and 0 otherwise; when it
carries one, that value is reported unchanged. -/
theorem reportedProgress_spec :
    ∀ (st : HookState) (p : StatusPayload), st.statusData = some p →
      (p.progress = none →
        reportedProgress st =
          if isTerminalStatus (finalStatus st) = true then 100 else 0) ∧
      (∀ q : ℚ, p.progress = some q → reportedProgress st = q) := by
  intro st p h
  constructor
  · intro hp
    unfold reportedProgress
    rw [h, show Option.bind (some p) StatusPayload.progress = p.progress from rfl, hp]
    rfl
  · intro q hp
    unfold reportedProgress
    rw [h, show Option.bind (some p) StatusPayload.progress = p.progress from rfl, hp]
    rfl

/-- Witness for C10: a terminal payload without progress reports 100, a
payload with progress 55 reports 55. -/
theorem reportedProgress_spec_witness :
    reportedProgress ⟨some 1, none, some ⟨.completed, none, none⟩, none, 0, 0⟩ = 100 ∧
    reportedProgress ⟨some 1, none, some ⟨.running, some 55, none⟩, none, 0, 0⟩ = 55 := by
  constructor
  · have h := (reportedProgress_spec ⟨some 1, none, some ⟨.completed, none, none⟩, none, 0, 0⟩
      ⟨.completed, none, none⟩ rfl).1 rfl
    rw [h]
    decide
  · exact (reportedProgress_spec ⟨some 1, none, some ⟨.running, some 55, none⟩, none, 0, 0⟩
      ⟨.running, some 55, none⟩ rfl).2 55 rfl

/-! ## Invariants of the new-strategy wizard (C4, C7) -/

/-- The state component of `handleNext`. -/
lemma handleNext_state (s : WizardState) :
    (handleNext s).1 =
      if s.step = 1 ∧ s.selectedType = none then s
      else if s.step = 2 ∧ s.params.fast_period ≥ s.params.slow_period then s
      else { s with step := min (s.step + 1) 3 } := by
  unfold handleNext
  by_cases h1 : s.step = 1 ∧ s.selectedType = none
  · rw [if_pos h1, if_pos h1]
  · rw [if_neg h1, if_neg h1]
    by_cases h2 : s.step = 2 ∧ s.params.fast_period ≥ s.params.slow_period
    · rw [if_pos h2, if_pos h2]
    · rw [if_neg h2, if_neg h2]

/-- The state component of `handleSubmit`. -/
lemma handleSubmit_state (s : WizardState) :
    (handleSubmit s).1 =
      if s.strategyName.trim = "" then s
      else { s with issued := s.issued ++ [submitRequest s] } := by
  unfold handleSubmit
  by_cases h : s.strategyName.trim = ""
  · rw [if_pos h, if_pos h]
  · rw [if_neg h, if_neg h]

/-- Every entry of the defaults table satisfies the parameter
invariants: fast period below slow period, position size a percentage
between 10 and 100. -/
lemma applyTypeDefaults_good (t : StrategyTypeId) (p : WizardParams) :
    (applyTypeDefaults t p).fast_period < (applyTypeDefaults t p).slow_period ∧
    10 ≤ (applyTypeDefaults t p).position_size ∧
    (applyTypeDefaults t p).position_size ≤ 100 := by
  cases t <;> refine ⟨?_, ?_, ?_⟩ <;> norm_num [applyTypeDefaults]

/-- The wizard invariant: the step stays in 1..3; at the save step the
moving-average periods are ordered; the position-size percentage stays
in `[10, 100]`; and every issued create request carries an ordered
period pair and a position-size fraction in `(0, 1]`. -/
def WizardInv (s : WizardState) : Prop :=
  1 ≤ s.step ∧ s.step ≤ 3 ∧
  (s.step = 3 → s.params.fast_period < s.params.slow_period) ∧
  (10 ≤ s.params.position_size ∧ s.params.position_size ≤ 100) ∧
  (∀ r ∈ s.issued, r.logic_config.fast_period < r.logic_config.slow_period) ∧
  (∀ r ∈ s.issued,
    0 < r.logic_config.position_size ∧ r.logic_config.position_size ≤ 1)

lemma wizard_inv_init : WizardInv initialWizardState := by
  refine ⟨by decide, by decide, ?_, ⟨by decide, by decide⟩, ?_, ?_⟩
  · intro h
    exact absurd h (by decide)
  · intro r hr
    simp [initialWizardState] at hr
  · intro r hr
    simp [initialWizardState] at hr

/-- Any parameter update performed at step 2 that keeps the position
size inside the slider range preserves the invariant (the ordered-period
obligation only applies at step 3, which a step-2 update cannot
produce). -/
lemma wizard_inv_step2_update {s : WizardState} (hs : WizardInv s) (p : WizardParams)
    (h2 : s.step = 2) (hpos : 10 ≤ p.position_size ∧ p.position_size ≤ 100) :
    WizardInv { s with params := p } := by
  obtain ⟨ha, hb, _, _, he, hf⟩ := hs
  refine ⟨ha, hb, ?_, hpos, he, hf⟩
  intro h3
  exact absurd (h2.symm.trans h3) (by decide)

lemma wizard_inv_preserved {s t : WizardState}
    (hs : WizardInv s) (h : WizardStep s t) : WizardInv t := by
  cases h with
  | selectType ty h1 =>
    obtain ⟨ha, hb, _, _, he, hf⟩ := hs
    have hg := applyTypeDefaults_good ty s.params
    exact ⟨ha, hb, fun _ => hg.1, ⟨hg.2.1, hg.2.2⟩, he, hf⟩
  | urlTypeEffect ty =>
    obtain ⟨ha, hb, _, _, he, hf⟩ := hs
    have hg := applyTypeDefaults_good ty s.params
    exact ⟨ha, hb, fun _ => hg.1, ⟨hg.2.1, hg.2.2⟩, he, hf⟩
  | next =>
    rw [handleNext_state]
    by_cases h1 : s.step = 1 ∧ s.selectedType = none
    · rw [if_pos h1]; exact hs
    · rw [if_neg h1]
      by_cases h2 : s.step = 2 ∧ s.params.fast_period ≥ s.params.slow_period
      · rw [if_pos h2]; exact hs
      · rw [if_neg h2]
        obtain ⟨ha, hb, hc, hd, he, hf⟩ := hs
        refine ⟨show 1 ≤ min (s.step + 1) 3 by omega,
          show min (s.step + 1) 3 ≤ 3 by omega, ?_, hd, he, hf⟩
        intro h3
        have h3b : min (s.step + 1) 3 = 3 := h3
        have hstep : s.step = 2 ∨ s.step = 3 := by omega
        rcases hstep with h | h
        · have hlt : ¬ s.params.fast_period ≥ s.params.slow_period :=
            fun hge => h2 ⟨h, hge⟩
          exact not_le.mp hlt
        · exact hc h
  | back =>
    obtain ⟨ha, hb, hc, hd, he, hf⟩ := hs
    refine ⟨show 1 ≤ max (s.step - 1) 1 by omega,
      show max (s.step - 1) 1 ≤ 3 by omega, ?_, hd, he, hf⟩
    intro h3
    have h3b : max (s.step - 1) 1 = 3 := h3
    exact absurd h3b (by omega)
  | setFastPeriod v h1 => exact wizard_inv_step2_update hs _ h1 hs.2.2.2.1
  | setSlowPeriod v h1 => exact wizard_inv_step2_update hs _ h1 hs.2.2.2.1
  | setBuyThreshold v h1 => exact wizard_inv_step2_update hs _ h1 hs.2.2.2.1
  | setPanicThreshold v h1 => exact wizard_inv_step2_update hs _ h1 hs.2.2.2.1
  | setSentimentLookback v h1 => exact wizard_inv_step2_update hs _ h1 hs.2.2.2.1
  | setStopLoss v h1 => exact wizard_inv_step2_update hs _ h1 hs.2.2.2.1
  | setTakeProfit v h1 => exact wizard_inv_step2_update hs _ h1 hs.2.2.2.1
  | setPositionSize v h1 hv => exact wizard_inv_step2_update hs _ h1 hv
  | setAiWeight v h1 => exact wizard_inv_step2_update hs _ h1 hs.2.2.2.1
  | setIgnoreAi b h1 => exact wizard_inv_step2_update hs _ h1 hs.2.2.2.1
  | setName name h1 => exact hs
  | submit h1 =>
    rw [handleSubmit_state]
    by_cases hname : s.strategyName.trim = ""
    · rw [if_pos hname]; exact hs
    · rw [if_neg hname]
      obtain ⟨ha, hb, hc, hd, he, hf⟩ := hs
      refine ⟨ha, hb, hc, hd, ?_, ?_⟩
      · intro r hrmem
        rcases List.mem_append.1 hrmem with h | h
        · exact he r h
        · have hr2 : r = submitRequest s := by simpa using h
          subst hr2
          exact hc h1
      · intro r hrmem
        rcases List.mem_append.1 hrmem with h | h
        · exact hf r h
        · have hr2 : r = submitRequest s := by simpa using h
          subst hr2
          constructor
          · show 0 < s.params.position_size / 100
            exact div_pos (lt_of_lt_of_le (by norm_num) hd.1) (by norm_num)
          · show s.params.position_size / 100 ≤ 1
            rw [div_le_one (by norm_num : (0:ℚ) < 100)]
            exact hd.2

lemma reaches_wizardInv {s : WizardState} (hr : WizardReaches s) : WizardInv s := by
  induction hr with
  | start => exact wizard_inv_init
  | step hreach hstep ih => exact wizard_inv_preserved ih hstep

/-- C4: every create request issued by the wizard carries an ordered
period pair (`fast_period < slow_period`), and at step 2 a configuration
with `fast_period >= slow_period` is rejected by `handleNext` with an
error toast and an unchanged state — never silently corrected. -/
theorem wizard_enforces_fast_lt_slow :
    (∀ s : WizardState, WizardReaches s →
      ∀ r ∈ s.issued,
        r.logic_config.fast_period < r.logic_config.slow_period) ∧
    (∀ s : WizardState, s.step = 2 →
      s.params.fast_period ≥ s.params.slow_period →
      handleNext s = (s, [.validationToast])) := by
  constructor
  · intro s hr
    exact (reaches_wizardInv hr).2.2.2.2.1
  · intro s h2 hge
    unfold handleNext
    have h1 : ¬ (s.step = 1 ∧ s.selectedType = none) := by
      intro h
      rw [h.1] at h2
      exact absurd h2 (by decide)
    rw [if_neg h1, if_pos ⟨h2, hge⟩]

/-- A demonstration run of the wizard: choose the SMA type, advance
through the parameter step, name the strategy and submit. -/
def wizardDemo1 : WizardState := handleTypeSelect .sma_crossover initialWizardState

def wizardDemo2 : WizardState := (handleNext wizardDemo1).1

def wizardDemo3 : WizardState := (handleNext wizardDemo2).1

def wizardDemo4 : WizardState := { wizardDemo3 with strategyName := "Demo strategy" }

def wizardDemo5 : WizardState := (handleSubmit wizardDemo4).1

lemma wizardDemo_reaches : WizardReaches wizardDemo5 :=
  .step (.step (.step (.step (.step .start
    (WizardStep.selectType _ .sma_crossover (by decide)))
    (WizardStep.next _))
    (WizardStep.next _))
    (WizardStep.setName _ "Demo strategy" (by decide)))
    (WizardStep.submit _ (by decide))

/-- A wizard state sitting at step 2 with equal periods. -/
def badWizardState : WizardState :=
  { initialWizardState with
    step := 2
    params := { initialWizardParams with fast_period := 30, slow_period := 30 } }

/-- Witness for C4: the demonstration run only issues ordered period
pairs, and at step 2 equal periods are rejected with an error toast. -/
theorem wizard_enforces_fast_lt_slow_witness :
    (∀ r ∈ wizardDemo5.issued,
      r.logic_config.fast_period < r.logic_config.slow_period) ∧
    handleNext badWizardState = (badWizardState, [.validationToast]) :=
  ⟨wizard_enforces_fast_lt_slow.1 wizardDemo5 wizardDemo_reaches,
   wizard_enforces_fast_lt_slow.2 badWizardState rfl (by decide)⟩

/-- C7: in every reachable wizard state the UI position-size percentage
lies in `[10, 100]`, and every issued create request carries
`logic_config.position_size` in `(0, 1]` (the percentage divided by
100). -/
theorem wizard_position_size_fraction :
    ∀ s : WizardState, WizardReaches s →
      (10 ≤ s.params.position_size ∧ s.params.position_size ≤ 100) ∧
      ∀ r ∈ s.issued,
        0 < r.logic_config.position_size ∧ r.logic_config.position_size ≤ 1 := by
  intro s hr
  have h := reaches_wizardInv hr
  exact ⟨h.2.2.2.1, h.2.2.2.2.2⟩

/-- A second demonstration run that moves the position-size slider to
50% before submitting. -/
def wizardDemoP3 : WizardState :=
  { wizardDemo2 with params := { wizardDemo2.params with position_size := 50 } }

def wizardDemoP4 : WizardState := (handleNext wizardDemoP3).1

def wizardDemoP5 : WizardState := { wizardDemoP4 with strategyName := "Demo P" }

def wizardDemoP6 : WizardState := (handleSubmit wizardDemoP5).1

lemma wizardDemoP_reaches : WizardReaches wizardDemoP6 :=
  .step (.step (.step (.step (.step (.step .start
    (WizardStep.selectType _ .sma_crossover (by decide)))
    (WizardStep.next _))
    (WizardStep.setPositionSize _ 50 (by decide) ⟨by decide, by decide⟩))
    (WizardStep.next _))
    (WizardStep.setName _ "Demo P" (by decide)))
    (WizardStep.submit _ (by decide))

/-- Witness for C7: the 50% demonstration run keeps the percentage in
range and issues a request with a position-size fraction in `(0, 1]`. -/
theorem wizard_position_size_fraction_witness :
    (10 ≤ wizardDemoP6.params.position_size ∧
      wizardDemoP6.params.position_size ≤ 100) ∧
    ∀ r ∈ wizardDemoP6.issued,
      0 < r.logic_config.position_size ∧ r.logic_config.position_size ≤ 1 :=
  wizard_position_size_fraction wizardDemoP6 wizardDemoP_reaches
